import Mathlib

/-!
Shallow embedding of the layout and classification core of
`generate_life_calendar.py` and `generate_goal.py`.

Dates model Python `datetime.date`: a (year, month, day) triple of the
proleptic Gregorian calendar.  `Date.toOrd` models `date.toordinal()`
(so `toOrd ⟨1, 1, 1⟩ = 1`), `Date.weekday` models `date.weekday()`
(Monday = 0), and `Date.lt`/`Date.le` model Python's lexicographic
comparison of dates.  Python bounds years to 1..9999; the embedding
extends the same calendar arithmetic to all integer years (Python's
`//` and `%` are floor operations, which for the positive divisors used
here coincide with Lean's `/` and `%` on `Int`).
-/

set_option maxRecDepth 40000

namespace Cal

structure Date where
  year : Int
  month : Int
  day : Int
deriving DecidableEq, Repr

/-- The Gregorian leap-year rule, as implemented by `datetime`. -/
def isLeapYear (y : Int) : Bool :=
  (y % 4 == 0 && y % 100 != 0) || y % 400 == 0

/-- Number of days in month `m` of year `y` (models `datetime`'s
`_days_in_month`). -/
def daysInMonth (y m : Int) : Int :=
  if m = 2 then (if isLeapYear y then 29 else 28)
  else if m = 4 ∨ m = 6 ∨ m = 9 ∨ m = 11 then 30
  else 31

/-- The condition under which `datetime.date(year, month, day)` succeeds
(with years unrestricted, see the module docstring). -/
def Date.Valid (d : Date) : Prop :=
  1 ≤ d.month ∧ d.month ≤ 12 ∧ 1 ≤ d.day ∧ d.day ≤ daysInMonth d.year d.month

instance (d : Date) : Decidable d.Valid := by
  unfold Date.Valid; infer_instance

/-- `datetime`'s `_DAYS_BEFORE_MONTH` table: cumulative days before month
`m` in a non-leap year. -/
def DAYS_BEFORE_MONTH (m : Int) : Int :=
  if m ≤ 1 then 0 else if m ≤ 2 then 31 else if m ≤ 3 then 59
  else if m ≤ 4 then 90 else if m ≤ 5 then 120 else if m ≤ 6 then 151
  else if m ≤ 7 then 181 else if m ≤ 8 then 212 else if m ≤ 9 then 243
  else if m ≤ 10 then 273 else if m ≤ 11 then 304 else 334

/-- Days of year `y` that lie strictly before month `m` (models
`datetime`'s `_days_before_month`: the table plus a leap-day adjustment
from March on). -/
def daysBeforeMonth (y m : Int) : Int :=
  DAYS_BEFORE_MONTH m + (if 3 ≤ m ∧ isLeapYear y = true then 1 else 0)

/-- Number of days in all years before year `y` (models `datetime`'s
`_days_before_year`: `365 (y-1) + (y-1)//4 - (y-1)//100 + (y-1)//400`; Python's floor `//` and `%` on the positive divisors used here agree with Lean's `/` and `%` on `Int`). -/
def daysBeforeYear (y : Int) : Int :=
  365 * (y - 1) + (y - 1) / 4 - (y - 1) / 100 + (y - 1) / 400

/-- `date.toordinal()`: January 1st of year 1 is day 1. -/
def Date.toOrd (d : Date) : Int :=
  daysBeforeYear d.year + daysBeforeMonth d.year d.month + d.day

/-- `date.weekday()`: 0 = Monday (January 1st of year 1, ordinal 1, is a
Monday). -/
def Date.weekday (d : Date) : Int :=
  (d.toOrd + 6) % 7

/-- Python date comparison `a < b`: lexicographic on (year, month, day). -/
def Date.lt (a b : Date) : Prop :=
  a.year < b.year ∨ (a.year = b.year ∧
    (a.month < b.month ∨ (a.month = b.month ∧ a.day < b.day)))

/-- Python date comparison `a <= b`. -/
def Date.le (a b : Date) : Prop :=
  Date.lt a b ∨ a = b

instance (a b : Date) : Decidable (Date.lt a b) := by
  unfold Date.lt; infer_instance

instance (a b : Date) : Decidable (Date.le a b) := by
  unfold Date.le; infer_instance

/-- `d + timedelta(days=1)`. -/
def Date.nextDay (d : Date) : Date :=
  if d.day < daysInMonth d.year d.month then ⟨d.year, d.month, d.day + 1⟩
  else if d.month < 12 then ⟨d.year, d.month + 1, 1⟩
  else ⟨d.year + 1, 1, 1⟩

/-- `d - timedelta(days=1)`. -/
def Date.prevDay (d : Date) : Date :=
  if 1 < d.day then ⟨d.year, d.month, d.day - 1⟩
  else if 1 < d.month then ⟨d.year, d.month - 1, daysInMonth d.year (d.month - 1)⟩
  else ⟨d.year - 1, 12, 31⟩

/-- `d + timedelta(days=n)`. -/
def Date.addDays (d : Date) : Nat → Date
  | 0 => d
  | n + 1 => (Date.addDays d n).nextDay

/-- `d - timedelta(days=n)`. -/
def Date.subDays (d : Date) : Nat → Date
  | 0 => d
  | n + 1 => (Date.subDays d n).prevDay

/-- `get_monday(date) = date - timedelta(date.weekday())`. -/
def get_monday (d : Date) : Date :=
  d.subDays d.weekday.toNat

/-- `is_future(now, date) = now < date`. -/
def is_future (now date : Date) : Bool :=
  decide (Date.lt now date)

instance {e a : Type} [DecidableEq e] [DecidableEq a] : DecidableEq (Except e a) :=
  fun x y =>
    match x, y with
    | .ok u, .ok v =>
      if h : u = v then isTrue (by rw [h]) else isFalse (fun hc => h (Except.ok.inj hc))
    | .error u, .error v =>
      if h : u = v then isTrue (by rw [h]) else isFalse (fun hc => h (Except.error.inj hc))
    | .ok _, .error _ => isFalse (fun hc => Except.noConfusion hc)
    | .error _, .ok _ => isFalse (fun hc => Except.noConfusion hc)

/-- `datetime.date(year, month, day)` as a fallible constructor: models
the construction inside the `try:` of `is_current_week`, which raises
`ValueError` (here `.error`) exactly when the triple is invalid. -/
def mkDate (year month day : Int) : Except Unit Date :=
  if Date.Valid ⟨year, month, day⟩ then .ok ⟨year, month, day⟩ else .error ()

/-- One iteration of the `for year in [now.year, now.year + 1]` loop body
of `is_current_week`: construct `date(year, month, day)`; on `ValueError`
(i.e. when the triple is invalid), a (2, 29) anchor falls back to
`date(year, month, day - 1)` — which may itself raise — and any other
invalid anchor re-raises. -/
def anchorIn (year month day : Int) : Except Unit Date :=
  if (Date.mk year month day).Valid then .ok ⟨year, month, day⟩
  else if month = 2 ∧ day = 29 then mkDate year month (day - 1)
  else .error ()

/-- `is_current_week(now, month, day)`: whether the 7-day window
`[now, now + 7d)` contains the `(month, day)` anchor of year `now.year`
or of year `now.year + 1`. -/
def is_current_week (now : Date) (month day : Int) : Except Unit Bool := do
  let weekEnd := now.addDays 7
  let d1 ← anchorIn now.year month day
  let d2 ← anchorIn (now.year + 1) month day
  return (decide (Date.le now d1 ∧ Date.lt d1 weekEnd) ||
          decide (Date.le now d2 ∧ Date.lt d2 weekEnd))

/-! ### The life-calendar grid (`generate_life_calendar.py`)

A cell records the week's start date and its fill.  The fill colors of the
source are abstracted to a category: `(1, 1, 1)` ↦ `plain`,
`BIRTHDAY_COLOR` ↦ `birthday`, `NEWYEAR_COLOR` ↦ `newyear`, and the
`get_darkened_fill` overlay ↦ the `darkened` flag (the six resulting RGB
triples are pairwise distinct, so nothing is conflated).  The per-cell
x/y positions, which carry no classification content, are not recorded. -/

inductive Fill | plain | birthday | newyear
deriving DecidableEq, Repr

structure Cell where
  date : Date
  fill : Fill
  darkened : Bool
deriving DecidableEq, Repr

instance : Inhabited Cell := ⟨⟨⟨1, 1, 1⟩, Fill.plain, false⟩⟩

def NUM_OF_WEEKS : Nat := 52

/-- The fill decision in the body of `draw_row`: `BIRTHDAY_COLOR` if the
week contains the birthday anchor, `elif` `NEWYEAR_COLOR` if it contains
the (1, 1) anchor, else the plain white fill.  The `elif` is mirrored by
not evaluating the new-year test when the birthday test came out true. -/
def cellFill (birthdate : Date) (date : Date) : Except Unit Fill := do
  let bw ← is_current_week date birthdate.month birthdate.day
  if bw then
    return Fill.birthday
  else
    let nw ← is_current_week date 1 1
    return (if nw then Fill.newyear else Fill.plain)

/-- `darken_until_date and is_future(date, darken_until_date)`: `None` is
falsy, a date is truthy. -/
def cellDarkened (darken_until_date : Option Date) (date : Date) : Bool :=
  match darken_until_date with
  | none => false
  | some cutoff => is_future date cutoff

/-- `draw_row`: draws `NUM_OF_WEEKS` boxes, the week date advancing by
`timedelta(weeks=1)` per column. -/
def draw_row (birthdate : Date) (darken_until_date : Option Date) :
    Date → Nat → Except Unit (List Cell)
  | _, 0 => .ok []
  | date, n + 1 => do
    let fill ← cellFill birthdate date
    let rest ← draw_row birthdate darken_until_date (date.addDays 7) n
    return { date := date, fill := fill,
             darkened := cellDarkened darken_until_date date } :: rest

/-- `draw_grid`: one row per life year, the row's start advancing by
`timedelta(weeks=52)` (364 days), starting at `get_monday(birthdate)`. -/
def draw_grid (birthdate : Date) (darken_until_date : Option Date) :
    Date → Nat → Except Unit (List (List Cell))
  | _, 0 => .ok []
  | monday, n + 1 => do
    let row ← draw_row birthdate darken_until_date monday NUM_OF_WEEKS
    let rest ← draw_grid birthdate darken_until_date (monday.addDays (7 * 52)) n
    return row :: rest

/-- The grid as produced by `gen_calendar`'s call
`draw_grid(ctx, box_size, pos_x, Y_MARGIN, life_expectancy, darken_until_date, birthdate)`. -/
def lifeGrid (birthdate : Date) (darken_until_date : Option Date)
    (life_expectancy : Nat) : Except Unit (List (List Cell)) :=
  draw_grid birthdate darken_until_date (get_monday birthdate) life_expectancy

/-! ### Geometry of `gen_calendar`

Python computes `box_size` and `pos_x` with float division; the embedding
uses exact rationals (the claims compare these quantities with 0 and with
each other at magnitudes where the float rounding cannot flip any of the
comparisons involved). -/

def DOC_WIDTH : ℚ := 1683
def DOC_HEIGHT : ℚ := 2383
def Y_MARGIN : ℚ := 144
def BOX_MARGIN : ℚ := 6

/-- `box_size = ((DOC_HEIGHT - (Y_MARGIN + 36)) / life_expectancy) - BOX_MARGIN`:
the value of the expression when `life_expectancy` is nonzero.  At
`life_expectancy = 0` Python's division raises `ZeroDivisionError`; that
error path belongs to `gen_calendar`, which models it explicitly, so the
ℚ convention `x / 0 = 0` is never relied on. -/
def box_size (life_expectancy : ℚ) : ℚ :=
  ((DOC_HEIGHT - (Y_MARGIN + 36)) / life_expectancy) - BOX_MARGIN

/-- `pos_x`, the grid's left margin, as computed in `gen_calendar`. -/
def pos_x (life_expectancy : ℚ) : ℚ :=
  (DOC_WIDTH - ((box_size life_expectancy + BOX_MARGIN) * (NUM_OF_WEEKS : ℚ))
    - (BOX_MARGIN * (NUM_OF_WEEKS : ℚ) / 4)) / 2

/-- The left-margin formula exactly as the spec states it (§4.3 step 2):
`(canvasWidth − (boxSize + spacing) · columnCount) / 2`. -/
def specLeftMargin (life_expectancy : ℚ) : ℚ :=
  (DOC_WIDTH - (box_size life_expectancy + BOX_MARGIN) * (NUM_OF_WEEKS : ℚ)) / 2

/-- The layout phase of `gen_calendar`: it computes `box_size` and `pos_x`
and draws the grid.  The division inside `box_size` raises
`ZeroDivisionError` when `life_expectancy` is 0 (modelled as `.error`);
for every other row count the source contains no feasibility check on
`box_size`: there is no error path guarded by `box_size <= 0`. -/
def gen_calendar (birthdate : Date) (life_expectancy : Nat)
    (darken_until_date : Option Date) :
    Except Unit (ℚ × ℚ × List (List Cell)) :=
  if life_expectancy = 0 then .error ()
  else do
    let b := box_size (life_expectancy : ℚ)
    let px := pos_x (life_expectancy : ℚ)
    let grid ← lifeGrid birthdate darken_until_date life_expectancy
    return (b, px, grid)

/-! ### Helper definitions used by the statements and proofs -/

/-- The anchor day that `is_current_week` ends up using for `(month, day)`
in year `y`: day 29 of February falls back to 28 when year `y` is not a
leap year; every other anchor of a valid birth date is used as is. -/
def anchorDay (y month day : Int) : Int :=
  if 1 ≤ day ∧ day ≤ daysInMonth y month then day else day - 1

def anchorDate (y month day : Int) : Date :=
  ⟨y, month, anchorDay y month day⟩

def anchorOrd (y month day : Int) : Int :=
  (anchorDate y month day).toOrd

/-- `(month, day)` is a day of some year — the anchors a valid birth date
can supply (February is allowed 29 days; year 2000 is a leap year). -/
def AnchorValid (month day : Int) : Prop :=
  1 ≤ month ∧ month ≤ 12 ∧ 1 ≤ day ∧ day ≤ daysInMonth 2000 month

instance (month day : Int) : Decidable (AnchorValid month day) := by
  unfold AnchorValid; infer_instance

/-- The value of `is_current_week` when it does not raise. -/
def isCW (now : Date) (month day : Int) : Bool :=
  (is_current_week now month day).toOption.getD false

/-- The pure value of `cellFill` on anchors that cannot raise. -/
def pureFill (birthdate date : Date) : Fill :=
  if isCW date birthdate.month birthdate.day then Fill.birthday
  else if isCW date 1 1 then Fill.newyear else Fill.plain

def pureCell (birthdate : Date) (cut : Option Date) (date : Date) : Cell :=
  ⟨date, pureFill birthdate date, cellDarkened cut date⟩

/-- The cells of one row of the grid, in the pure form `draw_row` reduces
to when no anchor raises. -/
def pureRow (birthdate : Date) (cut : Option Date) (start : Date) (n : Nat) :
    List Cell :=
  (List.range n).map fun c => pureCell birthdate cut (start.addDays (7 * c))

/-- The rows of the grid, in the pure form `draw_grid` reduces to. -/
def pureGrid (birthdate : Date) (cut : Option Date) (start : Date) (n : Nat) :
    List (List Cell) :=
  (List.range n).map fun r =>
    pureRow birthdate cut (start.addDays (7 * 52 * r)) NUM_OF_WEEKS

/-! ### The goal calendar (`generate_goal.py`) -/

def WHITE_COLOR : Int × Int × Int := (1, 1, 1)
def BLACK_COLOR : Int × Int × Int := (0, 0, 0)

/-- A week entry of the listing built in `draw_boxes`: either a real date
or the integer `0` that the comprehension substitutes for days outside the
target month. -/
inductive DayEntry
  | pad
  | day (d : Date)
deriving DecidableEq, Repr

/-- `day < date` on a week entry: comparing the `0` sentinel with a date
raises `TypeError` in Python, modelled as `.error`. -/
def dayLt (e : DayEntry) (ref : Date) : Except Unit Bool :=
  match e with
  | .pad => .error ()
  | .day d => .ok (decide (Date.lt d ref))

/-- Loop body of `draw_days`: the border and fill colors of one box.
`border = BLACK; background = WHITE; if day == 0: border = WHITE
elif day < date: background = BLACK`.  The `day == 0` test is evaluated
before the order comparison. -/
def dayBox (ref : Date) (e : DayEntry) :
    Except Unit ((Int × Int × Int) × (Int × Int × Int)) := do
  if e = DayEntry.pad then
    return (WHITE_COLOR, WHITE_COLOR)
  else
    let lt ← dayLt e ref
    return (BLACK_COLOR, if lt then BLACK_COLOR else WHITE_COLOR)

/-- `draw_days`: renders one week of entries, one `(border, background)`
pair per entry. -/
def draw_days (ref : Date) :
    List DayEntry → Except Unit (List ((Int × Int × Int) × (Int × Int × Int)))
  | [] => .ok []
  | e :: rest => do
    let c ← dayBox ref e
    let cs ← draw_days ref rest
    return c :: cs

/-- The `(border, background)` pair `draw_days` emits for one entry. -/
def dayBoxColors (ref : Date) (e : DayEntry) :
    (Int × Int × Int) × (Int × Int × Int) :=
  match e with
  | .pad => (WHITE_COLOR, WHITE_COLOR)
  | .day d => (BLACK_COLOR, if Date.lt d ref then BLACK_COLOR else WHITE_COLOR)

/-- `calendar.Calendar().monthdatescalendar(y, m)` with the default Monday
first-weekday (note `draw_boxes` builds a fresh `calendar.Calendar()`, so
the module-level `setfirstweekday` never affects it).  Modelled from the
standard library's documented behavior: full Monday-aligned weeks of dates
from the Monday on or before the 1st of the month through the Sunday on or
after its last day. -/
def monthdatescalendar (y m : Int) : List (List Date) :=
  let first : Date := ⟨y, m, 1⟩
  let start := get_monday first
  let nweeks := ((first.weekday + daysInMonth y m + 6) / 7).toNat
  (List.range nweeks).map fun w =>
    (List.range 7).map fun j => start.addDays (7 * w + j)

/-- The week listing built at the top of `draw_boxes`:
`[[day if day.month == month else 0 for day in week] for week in weeks]`
over `calendar.Calendar().monthdatescalendar(date.year, month)`. -/
def boxWeeks (date : Date) (month : Int) : List (List DayEntry) :=
  (monthdatescalendar date.year month).map fun week =>
    week.map fun d => if d.month = month then DayEntry.day d else DayEntry.pad

/-! ## Arithmetic facts about the date model -/

theorem isLeapYear_iff (y : Int) :
    isLeapYear y = true ↔ ((y % 4 = 0 ∧ ¬ y % 100 = 0) ∨ y % 400 = 0) := by
  simp [isLeapYear]

theorem daysBeforeYear_succ (y : Int) :
    daysBeforeYear (y + 1) =
      daysBeforeYear y + 365 + (if isLeapYear y = true then 1 else 0) := by
  have h := isLeapYear_iff y
  unfold daysBeforeYear
  split_ifs with hl
  · have := h.mp hl
    omega
  · have : ¬ ((y % 4 = 0 ∧ ¬ y % 100 = 0) ∨ y % 400 = 0) := fun hc => hl (h.mpr hc)
    omega

theorem daysBeforeYear_add (y : Int) : ∀ k : Nat,
    daysBeforeYear y + 365 * k ≤ daysBeforeYear (y + k) ∧
      daysBeforeYear (y + k) ≤ daysBeforeYear y + 366 * k
  | 0 => by simp
  | k + 1 => by
    have ih := daysBeforeYear_add y k
    have h2 : y + ((k + 1 : Nat) : Int) = (y + (k : Int)) + 1 := by push_cast; ring
    have h3 : ((k + 1 : Nat) : Int) = (k : Int) + 1 := by push_cast; ring
    rw [h2, daysBeforeYear_succ, h3]
    split_ifs <;> omega

theorem daysBeforeYear_mono {y1 y2 : Int} (h : y1 ≤ y2) :
    daysBeforeYear y1 ≤ daysBeforeYear y2 := by
  have h0 := daysBeforeYear_add y1 (y2 - y1).toNat
  rw [show y1 + ((y2 - y1).toNat : Int) = y2 by omega] at h0
  omega

theorem daysBeforeYear_lt {y1 y2 : Int} (h : y1 < y2) :
    daysBeforeYear y1 + 365 ≤ daysBeforeYear y2 := by
  have h0 := daysBeforeYear_add y1 (y2 - y1).toNat
  rw [show y1 + ((y2 - y1).toNat : Int) = y2 by omega] at h0
  have hk : 1 ≤ ((y2 - y1).toNat : Int) := by omega
  omega

theorem daysInMonth_bounds (y m : Int) : 28 ≤ daysInMonth y m ∧ daysInMonth y m ≤ 31 := by
  unfold daysInMonth
  split_ifs <;> omega

theorem daysInMonth_feb (y : Int) :
    daysInMonth y 2 = if isLeapYear y = true then 29 else 28 := by
  simp [daysInMonth]

theorem daysInMonth_ne_two {y m : Int} (h : m ≠ 2) :
    daysInMonth y m = daysInMonth 2000 m := by
  unfold daysInMonth
  split_ifs <;> omega

set_option maxHeartbeats 1000000 in
theorem daysBeforeMonth_step (y m : Int) (h1 : 1 ≤ m) (h2 : m ≤ 11) :
    daysBeforeMonth y (m + 1) = daysBeforeMonth y m + daysInMonth y m := by
  interval_cases m <;> simp [daysBeforeMonth, DAYS_BEFORE_MONTH, daysInMonth] <;> split_ifs <;> omega

set_option maxHeartbeats 1000000 in
theorem daysBeforeMonth_nonneg (y m : Int) (h1 : 1 ≤ m) (h2 : m ≤ 12) :
    0 ≤ daysBeforeMonth y m := by
  interval_cases m <;> simp [daysBeforeMonth, DAYS_BEFORE_MONTH] <;> split_ifs <;> omega

set_option maxHeartbeats 1000000 in
theorem daysBeforeMonth_top (y m : Int) (h1 : 1 ≤ m) (h2 : m ≤ 12) :
    daysBeforeMonth y m + daysInMonth y m ≤
      365 + (if isLeapYear y = true then 1 else 0) := by
  interval_cases m <;> simp [daysBeforeMonth, DAYS_BEFORE_MONTH, daysInMonth] <;> split_ifs <;> omega

theorem daysBeforeMonth_chain (y : Int) : ∀ (k : Nat) (m : Int), 1 ≤ m →
    m + 1 + (k : Int) ≤ 12 →
    daysBeforeMonth y m + daysInMonth y m ≤ daysBeforeMonth y (m + 1 + (k : Int))
  | 0, m, h1, h2 => by
    rw [show m + 1 + ((0 : Nat) : Int) = m + 1 by push_cast; ring]
    rw [daysBeforeMonth_step y m h1 (by push_cast at h2; omega)]
  | k + 1, m, h1, h2 => by
    have ih := daysBeforeMonth_chain y k m h1 (by push_cast at h2 ⊢; omega)
    have hstep := daysBeforeMonth_step y (m + 1 + (k : Int)) (by omega)
      (by push_cast at h2; omega)
    have hdim := daysInMonth_bounds y (m + 1 + (k : Int))
    have hfin : m + 1 + ((k + 1 : Nat) : Int) = (m + 1 + (k : Int)) + 1 := by
      push_cast; ring
    rw [hfin, hstep]
    omega

theorem daysBeforeMonth_mono (y : Int) {m1 m2 : Int} (h1 : 1 ≤ m1) (h : m1 < m2)
    (h2 : m2 ≤ 12) :
    daysBeforeMonth y m1 + daysInMonth y m1 ≤ daysBeforeMonth y m2 := by
  have hc := daysBeforeMonth_chain y (m2 - m1 - 1).toNat m1 h1 (by omega)
  rwa [show m1 + 1 + (((m2 - m1 - 1).toNat : Nat) : Int) = m2 by omega] at hc

/-! ## `toOrd` versus validity and the lexicographic order -/

theorem toOrd_bounds {d : Date} (h : d.Valid) :
    daysBeforeYear d.year + 1 ≤ d.toOrd ∧ d.toOrd ≤ daysBeforeYear (d.year + 1) := by
  obtain ⟨h1, h2, h3, h4⟩ := h
  have hn := daysBeforeMonth_nonneg d.year d.month h1 h2
  have ht := daysBeforeMonth_top d.year d.month h1 h2
  have hs := daysBeforeYear_succ d.year
  unfold Date.toOrd
  split_ifs at ht hs <;> omega

theorem toOrd_lt_of_lt {a b : Date} (ha : a.Valid) (hb : b.Valid)
    (h : Date.lt a b) : a.toOrd < b.toOrd := by
  have Ba := toOrd_bounds ha
  have Bb := toOrd_bounds hb
  obtain ⟨a1, a2, a3, a4⟩ := ha
  obtain ⟨b1, b2, b3, b4⟩ := hb
  rcases h with hy | ⟨hy, hm | ⟨hm, hd⟩⟩
  · have := daysBeforeYear_mono (show a.year + 1 ≤ b.year by omega)
    omega
  · have hmono := @daysBeforeMonth_mono a.year a.month b.month a1 hm b2
    unfold Date.toOrd
    rw [← hy]
    omega
  · unfold Date.toOrd
    rw [← hy, ← hm]
    omega

theorem date_trichotomy (a b : Date) : Date.lt a b ∨ a = b ∨ Date.lt b a := by
  obtain ⟨ay, am, ad⟩ := a
  obtain ⟨by_, bm, bd⟩ := b
  simp only [Date.lt, Date.mk.injEq]
  omega

theorem lt_iff_toOrd {a b : Date} (ha : a.Valid) (hb : b.Valid) :
    Date.lt a b ↔ a.toOrd < b.toOrd := by
  constructor
  · exact toOrd_lt_of_lt ha hb
  · intro h
    rcases date_trichotomy a b with hl | rfl | hr
    · exact hl
    · omega
    · have := toOrd_lt_of_lt hb ha hr
      omega

theorem le_iff_toOrd {a b : Date} (ha : a.Valid) (hb : b.Valid) :
    Date.le a b ↔ a.toOrd ≤ b.toOrd := by
  unfold Date.le
  constructor
  · rintro (h | rfl)
    · exact le_of_lt (toOrd_lt_of_lt ha hb h)
    · exact le_refl _
  · intro h
    rcases date_trichotomy a b with hl | rfl | hr
    · exact Or.inl hl
    · exact Or.inr rfl
    · have := toOrd_lt_of_lt hb ha hr
      omega

/-! ## Day stepping -/

theorem valid_mk {y m d : Int} :
    (Date.mk y m d).Valid ↔ 1 ≤ m ∧ m ≤ 12 ∧ 1 ≤ d ∧ d ≤ daysInMonth y m :=
  Iff.rfl

theorem toOrd_mk {y m d : Int} :
    (Date.mk y m d).toOrd = daysBeforeYear y + daysBeforeMonth y m + d :=
  rfl

theorem nextDay_valid {d : Date} (h : d.Valid) : d.nextDay.Valid := by
  obtain ⟨h1, h2, h3, h4⟩ := h
  have hb1 := daysInMonth_bounds d.year (d.month + 1)
  have hb2 := daysInMonth_bounds (d.year + 1) 1
  unfold Date.nextDay
  split_ifs with hlt hm <;> rw [valid_mk] <;> omega

theorem toOrd_nextDay {d : Date} (h : d.Valid) : d.nextDay.toOrd = d.toOrd + 1 := by
  obtain ⟨h1, h2, h3, h4⟩ := h
  unfold Date.nextDay
  split_ifs with hlt hm
  · rw [toOrd_mk]
    unfold Date.toOrd
    ring
  · have hstep := daysBeforeMonth_step d.year d.month h1 (by omega)
    rw [toOrd_mk]
    unfold Date.toOrd
    omega
  · have hm12 : d.month = 12 := by omega
    have hd31 : daysInMonth d.year 12 = 31 := by norm_num [daysInMonth]
    have h12 : daysBeforeMonth d.year 12 =
        334 + (if isLeapYear d.year = true then 1 else 0) := by
      norm_num [daysBeforeMonth, DAYS_BEFORE_MONTH]
    have h1' : daysBeforeMonth (d.year + 1) 1 = 0 := by
      norm_num [daysBeforeMonth, DAYS_BEFORE_MONTH]
    have hs := daysBeforeYear_succ d.year
    rw [hm12, hd31] at h4 hlt
    rw [toOrd_mk, h1']
    unfold Date.toOrd
    rw [hm12, h12, hs]
    split_ifs <;> omega

theorem prevDay_valid {d : Date} (h : d.Valid) : d.prevDay.Valid := by
  obtain ⟨h1, h2, h3, h4⟩ := h
  have hb1 := daysInMonth_bounds d.year (d.month - 1)
  have hb3 : daysInMonth (d.year - 1) 12 = 31 := by norm_num [daysInMonth]
  unfold Date.prevDay
  split_ifs with hgt hm <;> rw [valid_mk] <;> omega

theorem toOrd_prevDay {d : Date} (h : d.Valid) : d.prevDay.toOrd = d.toOrd - 1 := by
  obtain ⟨h1, h2, h3, h4⟩ := h
  unfold Date.prevDay
  split_ifs with hgt hm
  · rw [toOrd_mk]
    unfold Date.toOrd
    ring
  · have hstep := daysBeforeMonth_step d.year (d.month - 1) (by omega) (by omega)
    rw [show d.month - 1 + 1 = d.month by ring] at hstep
    have hday : d.day = 1 := by omega
    rw [toOrd_mk]
    unfold Date.toOrd
    rw [hday]
    omega
  · have hm1 : d.month = 1 := by omega
    have hday : d.day = 1 := by omega
    have h12 : daysBeforeMonth (d.year - 1) 12 =
        334 + (if isLeapYear (d.year - 1) = true then 1 else 0) := by
      norm_num [daysBeforeMonth, DAYS_BEFORE_MONTH]
    have h1' : daysBeforeMonth d.year 1 = 0 := by
      norm_num [daysBeforeMonth, DAYS_BEFORE_MONTH]
    have hs := daysBeforeYear_succ (d.year - 1)
    rw [show d.year - 1 + 1 = d.year by ring] at hs
    rw [toOrd_mk, h12]
    unfold Date.toOrd
    rw [hm1, hday, h1', hs]
    split_ifs <;> omega

theorem addDays_valid {d : Date} (h : d.Valid) : ∀ n : Nat, (d.addDays n).Valid
  | 0 => h
  | n + 1 => nextDay_valid (addDays_valid h n)

theorem toOrd_addDays {d : Date} (h : d.Valid) : ∀ n : Nat,
    (d.addDays n).toOrd = d.toOrd + n
  | 0 => by simp [Date.addDays]
  | n + 1 => by
    have hs := toOrd_nextDay (addDays_valid h n)
    have ih := toOrd_addDays h n
    simp only [Date.addDays, hs, ih]
    push_cast
    ring

theorem addDays_add (d : Date) (a : Nat) : ∀ b : Nat,
    d.addDays (a + b) = (d.addDays a).addDays b
  | 0 => rfl
  | b + 1 => by
    show (d.addDays (a + b)).nextDay = ((d.addDays a).addDays b).nextDay
    rw [addDays_add d a b]

theorem subDays_valid {d : Date} (h : d.Valid) : ∀ n : Nat, (d.subDays n).Valid
  | 0 => h
  | n + 1 => prevDay_valid (subDays_valid h n)

theorem toOrd_subDays {d : Date} (h : d.Valid) : ∀ n : Nat,
    (d.subDays n).toOrd = d.toOrd - n
  | 0 => by simp [Date.subDays]
  | n + 1 => by
    have hs := toOrd_prevDay (subDays_valid h n)
    have ih := toOrd_subDays h n
    simp only [Date.subDays, hs, ih]
    push_cast
    ring

theorem weekday_bounds (d : Date) : 0 ≤ d.weekday ∧ d.weekday < 7 := by
  unfold Date.weekday
  omega

theorem get_monday_valid {d : Date} (h : d.Valid) : (get_monday d).Valid :=
  subDays_valid h _

theorem toOrd_get_monday {d : Date} (h : d.Valid) :
    (get_monday d).toOrd = d.toOrd - d.weekday := by
  unfold get_monday
  rw [toOrd_subDays h]
  have := weekday_bounds d
  omega

theorem weekday_get_monday {d : Date} (h : d.Valid) : (get_monday d).weekday = 0 := by
  have hm := toOrd_get_monday h
  unfold Date.weekday at hm ⊢
  omega

/-! ## Anchor dates and `is_current_week` -/

set_option maxHeartbeats 1000000 in
theorem daysInMonth_le_max (y m : Int) : daysInMonth y m ≤ daysInMonth 2000 m := by
  have h2000 : isLeapYear 2000 = true := by decide
  unfold daysInMonth
  split_ifs <;> simp_all

theorem anchorValid_of_valid {d : Date} (h : d.Valid) : AnchorValid d.month d.day :=
  ⟨h.1, h.2.1, h.2.2.1, le_trans h.2.2.2 (daysInMonth_le_max d.year d.month)⟩

theorem anchorDay_eq_of_ne {month day : Int} (h : AnchorValid month day) (y : Int)
    (hnot : ¬ (month = 2 ∧ day = 29)) : anchorDay y month day = day := by
  obtain ⟨h1, h2, h3, h4⟩ := h
  have hb := daysInMonth_bounds y month
  unfold anchorDay
  rw [if_pos]
  refine ⟨h3, ?_⟩
  by_cases hm : month = 2
  · have h29 : daysInMonth 2000 2 = 29 := by decide
    rw [hm] at h4 hb ⊢
    rw [h29] at h4
    omega
  · rw [daysInMonth_ne_two hm] at hb ⊢
    omega

theorem anchor_invalid_case {y month day : Int} (h : AnchorValid month day)
    (hv : ¬ (Date.mk y month day).Valid) :
    month = 2 ∧ day = 29 ∧ daysInMonth y 2 = 28 := by
  obtain ⟨h1, h2, h3, h4⟩ := h
  rw [valid_mk] at hv
  by_cases hm : month = 2
  · subst hm
    have h29 : daysInMonth 2000 2 = 29 := by decide
    rw [h29] at h4
    have hf := daysInMonth_feb y
    refine ⟨rfl, ?_, ?_⟩ <;> split_ifs at hf <;> omega
  · exfalso
    rw [daysInMonth_ne_two hm] at hv
    omega

theorem anchorDate_valid {month day : Int} (h : AnchorValid month day) (y : Int) :
    (anchorDate y month day).Valid := by
  by_cases hv : (Date.mk y month day).Valid
  · unfold anchorDate anchorDay
    rw [if_pos ⟨hv.2.2.1, hv.2.2.2⟩]
    exact hv
  · obtain ⟨hm, hd, hdim⟩ := anchor_invalid_case h hv
    subst hm; subst hd
    unfold anchorDate anchorDay
    rw [if_neg (by omega)]
    rw [valid_mk]
    omega

theorem anchorIn_eq {month day : Int} (h : AnchorValid month day) (y : Int) :
    anchorIn y month day = .ok (anchorDate y month day) := by
  by_cases hv : (Date.mk y month day).Valid
  · have hd : anchorDay y month day = day := by
      unfold anchorDay
      rw [if_pos ⟨hv.2.2.1, hv.2.2.2⟩]
    unfold anchorIn
    rw [if_pos hv]
    simp [anchorDate, hd]
  · obtain ⟨hm, hd, hdim⟩ := anchor_invalid_case h hv
    subst hm; subst hd
    have hv28 : (Date.mk y 2 (29 - 1)).Valid := by
      rw [valid_mk]
      omega
    unfold anchorIn mkDate
    rw [if_neg hv, if_pos (show (2 : Int) = 2 ∧ (29 : Int) = 29 from ⟨rfl, rfl⟩),
      if_pos hv28]
    unfold anchorDate anchorDay
    rw [if_neg (show ¬ ((1 : Int) ≤ 29 ∧ (29 : Int) ≤ daysInMonth y 2) by omega)]

set_option maxHeartbeats 400000 in
theorem anchorOrd_gap {month day : Int} (h : AnchorValid month day) (y : Int) :
    365 ≤ anchorOrd (y + 1) month day - anchorOrd y month day ∧
      anchorOrd (y + 1) month day - anchorOrd y month day ≤ 366 := by
  have hs := daysBeforeYear_succ y
  have hdbm : daysBeforeMonth (y + 1) month - daysBeforeMonth y month =
      (if 3 ≤ month ∧ isLeapYear (y + 1) = true then 1 else 0)
        - (if 3 ≤ month ∧ isLeapYear y = true then 1 else 0) := by
    unfold daysBeforeMonth
    ring
  unfold anchorOrd anchorDate
  rw [toOrd_mk, toOrd_mk]
  by_cases hm : month = 2 ∧ day = 29
  · obtain ⟨hm2, hd29⟩ := hm
    subst hm2; subst hd29
    have hv1 : anchorDay y 2 29 = if isLeapYear y = true then 29 else 28 := by
      have hf := daysInMonth_feb y
      unfold anchorDay
      rw [hf]
      split_ifs <;> omega
    have hv2 : anchorDay (y + 1) 2 29 =
        if isLeapYear (y + 1) = true then 29 else 28 := by
      have hf := daysInMonth_feb (y + 1)
      unfold anchorDay
      rw [hf]
      split_ifs <;> omega
    norm_num at hdbm
    rw [hv1, hv2]
    split_ifs at hs ⊢ <;> omega
  · rw [anchorDay_eq_of_ne h y hm, anchorDay_eq_of_ne h (y + 1) hm]
    unfold daysBeforeMonth
    by_cases hm3 : 3 ≤ month <;>
      by_cases hl1 : isLeapYear y = true <;>
        by_cases hl2 : isLeapYear (y + 1) = true <;>
          simp [hm3, hl1, hl2] at hs ⊢ <;> omega

theorem anchorOrd_mono {month day : Int} (h : AnchorValid month day) (y : Int) :
    ∀ k : Nat, anchorOrd y month day + 365 * k ≤ anchorOrd (y + k) month day ∧
      anchorOrd (y + k) month day ≤ anchorOrd y month day + 366 * k
  | 0 => by simp
  | k + 1 => by
    have ih := anchorOrd_mono h y k
    have hg := anchorOrd_gap h (y + (k : Int))
    have hc : y + ((k + 1 : Nat) : Int) = (y + (k : Int)) + 1 := by push_cast; ring
    have h3 : ((k + 1 : Nat) : Int) = (k : Int) + 1 := by push_cast; ring
    rw [hc, h3]
    omega

theorem anchorOrd_year_bounds {month day : Int} (h : AnchorValid month day) (y : Int) :
    daysBeforeYear y + 1 ≤ anchorOrd y month day ∧
      anchorOrd y month day ≤ daysBeforeYear (y + 1) :=
  toOrd_bounds (anchorDate_valid h y)

theorem anchorOrd_self {d : Date} (h : d.Valid) :
    anchorOrd d.year d.month d.day = d.toOrd := by
  obtain ⟨h1, h2, h3, h4⟩ := h
  unfold anchorOrd anchorDate anchorDay
  rw [if_pos ⟨h3, h4⟩]

theorem is_current_week_eq {month day : Int} (h : AnchorValid month day) (now : Date) :
    is_current_week now month day = .ok
      (decide (Date.le now (anchorDate now.year month day) ∧
          Date.lt (anchorDate now.year month day) (now.addDays 7)) ||
       decide (Date.le now (anchorDate (now.year + 1) month day) ∧
          Date.lt (anchorDate (now.year + 1) month day) (now.addDays 7))) := by
  unfold is_current_week
  rw [anchorIn_eq h now.year, anchorIn_eq h (now.year + 1)]
  rfl

theorem is_current_week_isOk {month day : Int} (h : AnchorValid month day)
    (now : Date) : (is_current_week now month day).isOk = true := by
  rw [is_current_week_eq h now]
  rfl

theorem isCW_spec {month day : Int} (h : AnchorValid month day) (now : Date) :
    is_current_week now month day = .ok (isCW now month day) := by
  unfold isCW
  rw [is_current_week_eq h now]
  rfl

theorem is_current_week_true_iff {month day : Int} (h : AnchorValid month day)
    {now : Date} (hnow : now.Valid) :
    is_current_week now month day = .ok true ↔
      ∃ y : Int, now.toOrd ≤ anchorOrd y month day ∧
        anchorOrd y month day < now.toOrd + 7 := by
  have hv1 := anchorDate_valid h now.year
  have hv2 := anchorDate_valid h (now.year + 1)
  have hweek := addDays_valid hnow 7
  have hto : (now.addDays 7).toOrd = now.toOrd + (7 : Nat) := toOrd_addDays hnow 7
  push_cast at hto
  rw [is_current_week_eq h now]
  constructor
  · intro he
    have hx := Except.ok.inj he
    rw [Bool.or_eq_true, decide_eq_true_iff, decide_eq_true_iff] at hx
    rcases hx with ⟨hle, hlt⟩ | ⟨hle, hlt⟩
    · refine ⟨now.year, (le_iff_toOrd hnow hv1).mp hle, ?_⟩
      have := (lt_iff_toOrd hv1 hweek).mp hlt
      unfold anchorOrd
      omega
    · refine ⟨now.year + 1, (le_iff_toOrd hnow hv2).mp hle, ?_⟩
      have := (lt_iff_toOrd hv2 hweek).mp hlt
      unfold anchorOrd
      omega
  · rintro ⟨y, hy1, hy2⟩
    have hb := anchorOrd_year_bounds h y
    have hnb := toOrd_bounds hnow
    have hcase : y = now.year ∨ y = now.year + 1 := by
      by_contra hc
      push_neg at hc
      obtain ⟨hc1, hc2⟩ := hc
      rcases lt_or_gt_of_ne hc1 with hl | hg
      · have := daysBeforeYear_mono (show y + 1 ≤ now.year by omega)
        omega
      · have := daysBeforeYear_lt (show now.year + 1 < y by omega)
        omega
    rcases hcase with hcy | hcy
    · rw [hcy] at hy1 hy2
      have hle : Date.le now (anchorDate now.year month day) :=
        (le_iff_toOrd hnow hv1).mpr hy1
      have hlt : Date.lt (anchorDate now.year month day) (now.addDays 7) :=
        (lt_iff_toOrd hv1 hweek).mpr (by unfold anchorOrd at hy2; omega)
      simp [hle, hlt]
    · rw [hcy] at hy1 hy2
      have hle : Date.le now (anchorDate (now.year + 1) month day) :=
        (le_iff_toOrd hnow hv2).mpr hy1
      have hlt : Date.lt (anchorDate (now.year + 1) month day) (now.addDays 7) :=
        (lt_iff_toOrd hv2 hweek).mpr (by unfold anchorOrd at hy2; omega)
      simp [hle, hlt]

/-! ## The grid computation reduces to its pure form -/

theorem cellFill_eq {b : Date} (hb : b.Valid) (now : Date) :
    cellFill b now = .ok (pureFill b now) := by
  have hab := anchorValid_of_valid hb
  have ha1 : AnchorValid 1 1 := by decide
  unfold cellFill pureFill
  rw [isCW_spec hab now, isCW_spec ha1 now]
  cases hcw : isCW now b.month b.day <;> cases hnw : isCW now 1 1 <;> rfl

theorem addDays_shift (start : Date) (k c : Nat) :
    start.addDays (k * (c + 1)) = (start.addDays k).addDays (k * c) := by
  rw [show k * (c + 1) = k + k * c by ring, addDays_add]

theorem pureRow_succ (b : Date) (cut : Option Date) (start : Date) (n : Nat) :
    pureRow b cut start (n + 1) =
      pureCell b cut start :: pureRow b cut (start.addDays 7) n := by
  unfold pureRow
  rw [List.range_succ_eq_map, List.map_cons, List.map_map]
  have h0 : start.addDays (7 * 0) = start := rfl
  have hf : ((fun c => pureCell b cut (start.addDays (7 * c))) ∘ Nat.succ)
      = fun c => pureCell b cut ((start.addDays 7).addDays (7 * c)) := by
    funext c
    show pureCell b cut (start.addDays (7 * (c + 1))) = _
    rw [addDays_shift]
  rw [h0, hf]

theorem pureGrid_succ (b : Date) (cut : Option Date) (start : Date) (n : Nat) :
    pureGrid b cut start (n + 1) =
      pureRow b cut start NUM_OF_WEEKS ::
        pureGrid b cut (start.addDays (7 * 52)) n := by
  unfold pureGrid
  rw [List.range_succ_eq_map, List.map_cons, List.map_map]
  have h0 : start.addDays (7 * 52 * 0) = start := rfl
  have hf : ((fun r => pureRow b cut (start.addDays (7 * 52 * r)) NUM_OF_WEEKS)
        ∘ Nat.succ)
      = fun r => pureRow b cut ((start.addDays (7 * 52)).addDays (7 * 52 * r))
          NUM_OF_WEEKS := by
    funext r
    show pureRow b cut (start.addDays (7 * 52 * (r + 1))) NUM_OF_WEEKS = _
    rw [addDays_shift]
  rw [h0, hf]

theorem draw_row_eq {b : Date} (hb : b.Valid) (cut : Option Date) :
    ∀ (n : Nat) (start : Date),
      draw_row b cut start n = .ok (pureRow b cut start n)
  | 0, start => by
    simp [draw_row, pureRow]
  | n + 1, start => by
    rw [pureRow_succ]
    unfold draw_row
    rw [cellFill_eq hb start, draw_row_eq hb cut n (start.addDays 7)]
    rfl

theorem draw_grid_eq {b : Date} (hb : b.Valid) (cut : Option Date) :
    ∀ (n : Nat) (start : Date),
      draw_grid b cut start n = .ok (pureGrid b cut start n)
  | 0, start => by
    simp [draw_grid, pureGrid]
  | n + 1, start => by
    rw [pureGrid_succ]
    unfold draw_grid
    rw [draw_row_eq hb cut NUM_OF_WEEKS start,
      draw_grid_eq hb cut n (start.addDays (7 * 52))]
    rfl

theorem lifeGrid_eq {b : Date} (hb : b.Valid) (cut : Option Date) (n : Nat) :
    lifeGrid b cut n = .ok (pureGrid b cut (get_monday b) n) :=
  draw_grid_eq hb cut n (get_monday b)

theorem date_lt_trans {a b c : Date} (h1 : Date.lt a b) (h2 : Date.lt b c) :
    Date.lt a c := by
  unfold Date.lt at *
  omega

/-! ## The goal calendar reduces to its pure form -/

theorem draw_days_eq (ref : Date) : ∀ days : List DayEntry,
    draw_days ref days = .ok (days.map (dayBoxColors ref))
  | [] => rfl
  | e :: rest => by
    unfold draw_days
    rw [draw_days_eq ref rest]
    cases e with
    | pad => rfl
    | day d =>
      by_cases hlt : Date.lt d ref <;>
        simp [dayBox, dayLt, dayBoxColors, hlt] <;> rfl

theorem boxWeeks_entry_month {date : Date} {month : Int} {week : List DayEntry}
    (hw : week ∈ boxWeeks date month) {e : DayEntry} (he : e ∈ week) :
    ∀ d, e = DayEntry.day d → d.month = month := by
  unfold boxWeeks at hw
  obtain ⟨uweek, _, rfl⟩ := List.mem_map.mp hw
  obtain ⟨u, _, rfl⟩ := List.mem_map.mp he
  intro d hd
  split_ifs at hd with hm
  injection hd with h
  rw [← h]
  exact hm

/-! ## Exactly one birthday cell per row -/

theorem anchorOrd_strict {month day : Int} (h : AnchorValid month day)
    {y1 y2 : Int} (hy : y1 < y2) :
    anchorOrd y1 month day + 365 ≤ anchorOrd y2 month day := by
  have hm := anchorOrd_mono h y1 (y2 - y1).toNat
  rw [show y1 + (((y2 - y1).toNat : Nat) : Int) = y2 by omega] at hm
  have h1 : 1 ≤ ((y2 - y1).toNat : Int) := by omega
  omega

theorem countP_range_one (k : Nat) (p : Nat → Bool) : ∀ n : Nat, k < n →
    (∀ i, i < n → (p i = true ↔ i = k)) → (List.range n).countP p = 1
  | 0, hk, _ => by omega
  | m + 1, hk, h => by
    rw [List.range_succ, List.countP_append]
    by_cases hkm : k = m
    · subst hkm
      have h0 : (List.range k).countP p = 0 := by
        rw [List.countP_eq_zero]
        intro a ha
        have hak : a < k := List.mem_range.mp ha
        intro hpa
        have := (h a (by omega)).mp hpa
        omega
      have h1 : [k].countP p = 1 := by
        have hp := (h k (by omega)).mpr rfl
        simp [List.countP_cons, hp]
      omega
    · have hkm' : k < m := by omega
      have hpm : p m = false := by
        rcases Bool.eq_false_or_eq_true (p m) with ht | hf
        · exact absurd ((h m (by omega)).mp ht) (by omega)
        · exact hf
      have ih := countP_range_one k p m hkm' (fun i hi => h i (by omega))
      simp [ih, List.countP_cons, hpm]

theorem drift {b : Date} (hb : b.Valid) : ∀ r : Nat,
    (r : Int) ≤ anchorOrd (b.year + (r : Int)) b.month b.day
        - ((get_monday b).toOrd + 364 * (r : Int)) ∧
      anchorOrd (b.year + (r : Int)) b.month b.day
        - ((get_monday b).toOrd + 364 * (r : Int)) ≤ 6 + 2 * (r : Int)
  | 0 => by
    have hself := anchorOrd_self hb
    have hm := toOrd_get_monday hb
    have hw := weekday_bounds b
    have hc : b.year + ((0 : Nat) : Int) = b.year := by push_cast; ring
    rw [hc, hself]
    push_cast
    omega
  | r + 1 => by
    have ih := drift hb r
    have hab := anchorValid_of_valid hb
    have hg := anchorOrd_gap hab (b.year + (r : Int))
    have hc : b.year + ((r + 1 : Nat) : Int) = (b.year + (r : Int)) + 1 := by
      push_cast; ring
    rw [hc]
    push_cast
    omega

set_option maxHeartbeats 1000000 in
theorem pureRow_birthday_count {b : Date} (hb : b.Valid) (cut : Option Date)
    (r : Nat) (hr : r ≤ 178) :
    (pureRow b cut ((get_monday b).addDays (7 * 52 * r)) NUM_OF_WEEKS).countP
      (fun cell => cell.fill == Fill.birthday) = 1 := by
  have hab := anchorValid_of_valid hb
  have hMv : (get_monday b).Valid := get_monday_valid hb
  have hSv : ((get_monday b).addDays (7 * 52 * r)).Valid := addDays_valid hMv _
  have hdr := drift hb r
  have hSo : ((get_monday b).addDays (7 * 52 * r)).toOrd =
      (get_monday b).toOrd + 364 * (r : Int) := by
    rw [toOrd_addDays hMv]
    push_cast
    ring
  -- the unique column index
  have hpos : 0 ≤ anchorOrd (b.year + (r : Int)) b.month b.day
      - ((get_monday b).toOrd + 364 * (r : Int)) := by omega
  have htv : ((anchorOrd (b.year + (r : Int)) b.month b.day
      - ((get_monday b).toOrd + 364 * (r : Int))).toNat : Int) =
      anchorOrd (b.year + (r : Int)) b.month b.day
        - ((get_monday b).toOrd + 364 * (r : Int)) := by omega
  have hk52 : (anchorOrd (b.year + (r : Int)) b.month b.day
      - ((get_monday b).toOrd + 364 * (r : Int))).toNat / 7 < 52 := by omega
  unfold pureRow
  rw [List.countP_map]
  show (List.range NUM_OF_WEEKS).countP _ = 1
  apply countP_range_one _ _ NUM_OF_WEEKS hk52
  intro c hc
  have hc52 : c < 52 := hc
  have hcv := addDays_valid hSv (7 * c)
  have hco : (((get_monday b).addDays (7 * 52 * r)).addDays (7 * c)).toOrd =
      (get_monday b).toOrd + 364 * (r : Int) + 7 * (c : Int) := by
    rw [toOrd_addDays hSv, hSo]
    push_cast
    ring
  -- the predicate says: this cell's fill is `birthday`
  show ((pureCell b cut (((get_monday b).addDays (7 * 52 * r)).addDays (7 * c))).fill
      == Fill.birthday) = true ↔ _
  have hfill : (pureCell b cut
      (((get_monday b).addDays (7 * 52 * r)).addDays (7 * c))).fill =
      pureFill b (((get_monday b).addDays (7 * 52 * r)).addDays (7 * c)) := rfl
  rw [beq_iff_eq, hfill]
  have hpf : pureFill b (((get_monday b).addDays (7 * 52 * r)).addDays (7 * c))
      = Fill.birthday ↔
      isCW (((get_monday b).addDays (7 * 52 * r)).addDays (7 * c))
        b.month b.day = true := by
    unfold pureFill
    split_ifs with h1 h2 <;> simp [h1]
  rw [hpf]
  have hok := isCW_spec hab (((get_monday b).addDays (7 * 52 * r)).addDays (7 * c))
  have hiff := is_current_week_true_iff hab hcv
  rw [hok] at hiff
  have hcw_iff : isCW (((get_monday b).addDays (7 * 52 * r)).addDays (7 * c))
        b.month b.day = true ↔
      ∃ y : Int, (((get_monday b).addDays (7 * 52 * r)).addDays (7 * c)).toOrd ≤
          anchorOrd y b.month b.day ∧
        anchorOrd y b.month b.day <
          (((get_monday b).addDays (7 * 52 * r)).addDays (7 * c)).toOrd + 7 := by
    constructor
    · intro hcw
      exact hiff.mp (by rw [hcw])
    · intro hex
      have := hiff.mpr hex
      exact Except.ok.inj this
  rw [hcw_iff, hco]
  constructor
  · rintro ⟨y, hy1, hy2⟩
    -- the occurrence in this cell's window must be the one of year b.year + r
    have hyr : y = b.year + (r : Int) := by
      by_contra hne
      rcases lt_or_gt_of_ne hne with hl | hg
      · have := anchorOrd_strict hab hl
        omega
      · have := anchorOrd_strict hab hg
        omega
    rw [hyr] at hy1 hy2
    omega
  · intro hck
    refine ⟨b.year + (r : Int), ?_, ?_⟩ <;> subst hck <;> omega

/-! ## Indexing the pure grid -/

theorem pureGrid_length (b : Date) (cut : Option Date) (start : Date) (n : Nat) :
    (pureGrid b cut start n).length = n := by
  unfold pureGrid
  rw [List.length_map, List.length_range]

theorem pureRow_length (b : Date) (cut : Option Date) (start : Date) (n : Nat) :
    (pureRow b cut start n).length = n := by
  unfold pureRow
  rw [List.length_map, List.length_range]

theorem pureGrid_getD {b : Date} {cut : Option Date} {start : Date} {n r : Nat}
    (hr : r < n) :
    (pureGrid b cut start n).getD r [] =
      pureRow b cut (start.addDays (7 * 52 * r)) NUM_OF_WEEKS := by
  unfold pureGrid
  rw [List.getD_eq_getElem _ _ (by simpa using hr)]
  simp

theorem pureRow_getD {b : Date} {cut : Option Date} {start : Date} {n c : Nat}
    (hc : c < n) :
    (pureRow b cut start n).getD c default =
      pureCell b cut (start.addDays (7 * c)) := by
  unfold pureRow
  rw [List.getD_eq_getElem _ _ (by simpa using hc)]
  simp

theorem mem_pureGrid {b : Date} {cut : Option Date} {start : Date} {n : Nat}
    {row : List Cell} (h : row ∈ pureGrid b cut start n) :
    ∃ r : Nat, r < n ∧
      row = pureRow b cut (start.addDays (7 * 52 * r)) NUM_OF_WEEKS := by
  unfold pureGrid at h
  obtain ⟨r, hr, rfl⟩ := List.mem_map.mp h
  exact ⟨r, List.mem_range.mp hr, rfl⟩

theorem mem_pureRow {b : Date} {cut : Option Date} {start : Date} {n : Nat}
    {cell : Cell} (h : cell ∈ pureRow b cut start n) :
    ∃ c : Nat, c < n ∧ cell = pureCell b cut (start.addDays (7 * c)) := by
  unfold pureRow at h
  obtain ⟨c, hc, rfl⟩ := List.mem_map.mp h
  exact ⟨c, List.mem_range.mp hc, rfl⟩

/-! ## The claims -/

/-- C1: for every valid birth date and cutoff, in the life-calendar grid
produced for any supported row count (at most 100 rows), every life-year
row — the 52 week cells starting at `get_monday(birthdate) + r·52` weeks —
contains exactly one cell classified `birthday`: never zero, never two. -/
theorem claim_C1 (b : Date) (hb : b.Valid) (cut : Option Date) (n : Nat)
    (hn : n ≤ 100) (rows : List (List Cell))
    (hrows : lifeGrid b cut n = .ok rows) :
    ∀ row ∈ rows, row.countP (fun cell => cell.fill == Fill.birthday) = 1 := by
  rw [lifeGrid_eq hb cut n] at hrows
  obtain rfl := (Except.ok.inj hrows).symm
  intro row hrow
  obtain ⟨r, hr, rfl⟩ := mem_pureGrid hrow
  exact pureRow_birthday_count hb cut r (by omega)

theorem claim_C1_witness :
    (((lifeGrid ⟨1990, 6, 15⟩ none 1).toOption.getD []).getD 0 []).countP
      (fun cell => cell.fill == Fill.birthday) = 1 :=
  claim_C1 ⟨1990, 6, 15⟩ (by decide) none 1 (by omega)
    ((lifeGrid ⟨1990, 6, 15⟩ none 1).toOption.getD []) (by decide)
    (((lifeGrid ⟨1990, 6, 15⟩ none 1).toOption.getD []).getD 0 []) (by decide)

/-- C4: for every valid birth date — including February 29 — the anchor
test `is_current_week` returns a boolean for every week-start date,
without raising; a Feb-29 anchor queried against a non-leap year is
remapped to Feb 28 of that year, so the invalid-anchor error path is
unreachable. -/
theorem claim_C4 (b : Date) (hb : b.Valid) :
    (∀ now : Date, (is_current_week now b.month b.day).isOk = true) ∧
    (∀ y : Int, isLeapYear y = false → b.month = 2 → b.day = 29 →
      anchorIn y b.month b.day = .ok ⟨y, 2, 28⟩) := by
  constructor
  · intro now
    exact is_current_week_isOk (anchorValid_of_valid hb) now
  · intro y hl hm hd
    rw [hm, hd]
    have hf := daysInMonth_feb y
    rw [hl] at hf
    simp only [Bool.false_eq_true, if_false] at hf
    have hinv : ¬ (Date.mk y 2 29).Valid := by
      rw [valid_mk]
      omega
    have hv28 : (Date.mk y 2 (29 - 1)).Valid := by
      rw [valid_mk]
      omega
    unfold anchorIn
    rw [if_neg hinv, if_pos (show (2 : Int) = 2 ∧ (29 : Int) = 29 from ⟨rfl, rfl⟩)]
    unfold mkDate
    rw [if_pos hv28]
    norm_num

theorem claim_C4_witness :
    (is_current_week ⟨2023, 2, 27⟩ (2 : Int) 29).isOk = true ∧
      anchorIn 2023 2 29 = .ok ⟨2023, 2, 28⟩ :=
  ⟨(claim_C4 ⟨2000, 2, 29⟩ (by decide)).1 ⟨2023, 2, 27⟩,
   (claim_C4 ⟨2000, 2, 29⟩ (by decide)).2 2023 (by decide) rfl rfl⟩

/-- C5: a grid cell is darkened iff a cutoff date is set and the cell's
week-start date is strictly before it; consequently darkening is monotonic
over the week sequence — every cell whose date precedes a darkened cell's
date is itself darkened (a week is never partially shaded). -/
theorem claim_C5 (b : Date) (hb : b.Valid) (cut : Option Date) (n : Nat)
    (rows : List (List Cell)) (hrows : lifeGrid b cut n = .ok rows) :
    ∀ row ∈ rows, ∀ cell ∈ row,
      (cell.darkened = true ↔ ∃ cd, cut = some cd ∧ Date.lt cell.date cd) ∧
      (∀ row2 ∈ rows, ∀ cell2 ∈ row2,
        Date.lt cell2.date cell.date → cell.darkened = true →
          cell2.darkened = true) := by
  rw [lifeGrid_eq hb cut n] at hrows
  obtain rfl := (Except.ok.inj hrows).symm
  have hdk : ∀ row ∈ pureGrid b cut (get_monday b) n, ∀ cell ∈ row,
      cell.darkened = cellDarkened cut cell.date := by
    intro row hrow cell hcell
    obtain ⟨r, _, rfl⟩ := mem_pureGrid hrow
    obtain ⟨c, _, rfl⟩ := mem_pureRow hcell
    rfl
  intro row hrow cell hcell
  constructor
  · rw [hdk row hrow cell hcell]
    cases cut with
    | none => simp [cellDarkened]
    | some cd =>
      unfold cellDarkened is_future
      rw [decide_eq_true_iff]
      constructor
      · intro h
        exact ⟨cd, rfl, h⟩
      · rintro ⟨cd', hcd, h⟩
        cases Option.some.inj hcd
        exact h
  · intro row2 hrow2 cell2 hcell2 hlt hdark
    rw [hdk row2 hrow2 cell2 hcell2]
    rw [hdk row hrow cell hcell] at hdark
    cases cut with
    | none => simp [cellDarkened] at hdark
    | some cd =>
      unfold cellDarkened is_future at hdark ⊢
      rw [decide_eq_true_iff] at hdark ⊢
      exact date_lt_trans hlt hdark

theorem claim_C5_witness :
    ((((lifeGrid ⟨1990, 6, 15⟩ (some ⟨1990, 7, 1⟩) 1).toOption.getD
        []).getD 0 []).getD 0 default).darkened = true ↔
      ∃ cd, (some ⟨1990, 7, 1⟩ : Option Date) = some cd ∧
        Date.lt ((((lifeGrid ⟨1990, 6, 15⟩ (some ⟨1990, 7, 1⟩) 1).toOption.getD
          []).getD 0 []).getD 0 default).date cd :=
  (claim_C5 ⟨1990, 6, 15⟩ (by decide) (some ⟨1990, 7, 1⟩) 1
    ((lifeGrid ⟨1990, 6, 15⟩ (some ⟨1990, 7, 1⟩) 1).toOption.getD []) (by decide)
    (((lifeGrid ⟨1990, 6, 15⟩ (some ⟨1990, 7, 1⟩) 1).toOption.getD []).getD 0 [])
    (by decide)
    ((((lifeGrid ⟨1990, 6, 15⟩ (some ⟨1990, 7, 1⟩) 1).toOption.getD []).getD 0
      []).getD 0 default)
    (by decide)).1

/-- C6: whenever a week's Monday makes both the birthday-anchor test and
the January-1 anchor test return `True` (possible for a birth date in
early January), the classifier yields `birthday`, not `new-year`: the
birthday branch takes priority on every input. -/
theorem claim_C6 (b : Date) (now : Date)
    (h1 : is_current_week now b.month b.day = .ok true)
    (_h2 : is_current_week now 1 1 = .ok true) :
    cellFill b now = .ok Fill.birthday := by
  unfold cellFill
  rw [h1]
  rfl

theorem claim_C6_witness :
    cellFill ⟨1990, 1, 3⟩ ⟨2024, 1, 1⟩ = .ok Fill.birthday :=
  claim_C6 ⟨1990, 1, 3⟩ ⟨2024, 1, 1⟩ rfl rfl

/-- C2 counterexample: the claim says a box size ≤ 0 makes the layout fail
with a `LayoutInfeasible` error, but `gen_calendar` contains no such
check: at row count 400 the box size is negative and the layout still
succeeds (no error of any kind is raised). -/
theorem claim_C2_counterexample :
    box_size 400 ≤ 0 ∧ (gen_calendar ⟨1990, 6, 15⟩ 400 none).isOk = true := by
  constructor
  · norm_num [box_size, DOC_HEIGHT, Y_MARGIN, BOX_MARGIN]
  · unfold gen_calendar
    rw [if_neg (show ¬ (400 : Nat) = 0 by omega)]
    rw [lifeGrid_eq (show (Date.mk 1990 6 15).Valid by decide) none 400]
    rfl

/-- C2 amended: for every supported row count (80–100) the computed box
size is positive, and `gen_calendar` performs no box-size feasibility
check: for every positive row count — including those making the box size
≤ 0 — the layout succeeds with no failure, and at row count 0 the only
failure is the `ZeroDivisionError` of the box-size division itself, never
a `LayoutInfeasible` error. -/
theorem claim_C2_amended :
    (∀ n : Nat, 80 ≤ n → n ≤ 100 → 0 < box_size (n : ℚ)) ∧
    (∀ b : Date, b.Valid → ∀ (cut : Option Date) (n : Nat), 1 ≤ n →
      (gen_calendar b n cut).isOk = true) ∧
    (∀ (b : Date) (cut : Option Date), gen_calendar b 0 cut = .error ()) := by
  refine ⟨?_, ?_, ?_⟩
  · intro n h80 h100
    unfold box_size DOC_HEIGHT Y_MARGIN BOX_MARGIN
    have hn0 : (0 : ℚ) < (n : ℚ) := by
      exact_mod_cast show 0 < n by omega
    have hn100 : (n : ℚ) ≤ 100 := by exact_mod_cast h100
    rw [sub_pos, lt_div_iff₀ hn0]
    nlinarith
  · intro b hb cut n hn
    unfold gen_calendar
    rw [if_neg (show ¬ n = 0 by omega)]
    rw [lifeGrid_eq hb cut n]
    rfl
  · intro b cut
    rfl

theorem claim_C2_witness :
    0 < box_size ((90 : Nat) : ℚ) ∧
      (gen_calendar ⟨1990, 6, 15⟩ 1 none).isOk = true ∧
      gen_calendar ⟨1990, 6, 15⟩ 0 none = .error () :=
  ⟨claim_C2_amended.1 90 (by omega) (by omega),
   claim_C2_amended.2.1 ⟨1990, 6, 15⟩ (by decide) none 1 (by omega),
   claim_C2_amended.2.2 ⟨1990, 6, 15⟩ none⟩

/-- C3 counterexample: the spec's left-margin formula
`(canvasWidth − (boxSize+spacing)·columnCount) / 2` disagrees with the
code's `pos_x`, which additionally subtracts the extra
`BOX_MARGIN · NUM_OF_WEEKS / 4` gap inserted every 4th column — already at
row count 90 the two differ (by 39). -/
theorem claim_C3_counterexample : pos_x 90 ≠ specLeftMargin 90 := by
  norm_num [pos_x, specLeftMargin, box_size, DOC_WIDTH, DOC_HEIGHT, Y_MARGIN,
    BOX_MARGIN, NUM_OF_WEEKS]

/-- C3 amended: the grid's left margin equals
`(canvasWidth − (boxSize+spacing)·columnCount − spacing·(columnCount/4)) / 2`
for `columnCount = 52` — the code centers the grid including the extra
spacing gap inserted after every 4th column. -/
theorem claim_C3_amended (l : ℚ) :
    pos_x l = (DOC_WIDTH - (box_size l + BOX_MARGIN) * (NUM_OF_WEEKS : ℚ)
      - BOX_MARGIN * ((NUM_OF_WEEKS : ℚ) / 4)) / 2 := by
  unfold pos_x
  ring

/-- C7: in the grid, row `r` (0-indexed) starts at
`get_monday(birthdate) + r·52` weeks, every row has exactly 52 cells, and
the cell in column `c` is classified from the date
`monday + (r·52 + c)` weeks — a fixed 52-week stride per row, never an
ISO-year-accurate 52/53-week stride. -/
theorem claim_C7 (b : Date) (hb : b.Valid) (cut : Option Date) (n : Nat)
    (rows : List (List Cell)) (hrows : lifeGrid b cut n = .ok rows) :
    rows.length = n ∧
    ∀ r, r < n → (rows.getD r []).length = 52 ∧
      ∀ c, c < 52 → (rows.getD r []).getD c default =
        pureCell b cut ((get_monday b).addDays (7 * 52 * r + 7 * c)) := by
  rw [lifeGrid_eq hb cut n] at hrows
  obtain rfl := (Except.ok.inj hrows).symm
  refine ⟨pureGrid_length b cut (get_monday b) n, ?_⟩
  intro r hr
  rw [pureGrid_getD hr]
  refine ⟨pureRow_length b cut _ NUM_OF_WEEKS, ?_⟩
  intro c hc
  rw [pureRow_getD (show c < NUM_OF_WEEKS from hc), ← addDays_add]

theorem claim_C7_witness :
    (((lifeGrid ⟨1990, 6, 15⟩ none 1).toOption.getD []).getD 0 []).getD 0
        default =
      pureCell ⟨1990, 6, 15⟩ none
        ((get_monday ⟨1990, 6, 15⟩).addDays (7 * 52 * 0 + 7 * 0)) :=
  ((claim_C7 ⟨1990, 6, 15⟩ (by decide) none 1
    ((lifeGrid ⟨1990, 6, 15⟩ none 1).toOption.getD []) (by decide)).2 0
      (by omega)).2 0 (by omega)

/-- C9: every date the grid passes to the cell classifier is a Monday
(weekday 0): the first cell date is `get_monday(birthdate)`, and both the
52-week row stride and the 1-week column stride preserve the weekday, so
every cell's week-start date has weekday 0. -/
theorem claim_C9 (b : Date) (hb : b.Valid) (cut : Option Date) (n : Nat)
    (rows : List (List Cell)) (hrows : lifeGrid b cut n = .ok rows) :
    ∀ row ∈ rows, ∀ cell ∈ row, cell.date.weekday = 0 := by
  rw [lifeGrid_eq hb cut n] at hrows
  obtain rfl := (Except.ok.inj hrows).symm
  intro row hrow cell hcell
  obtain ⟨r, hr, rfl⟩ := mem_pureGrid hrow
  obtain ⟨c, hc, rfl⟩ := mem_pureRow hcell
  have hMv := get_monday_valid hb
  have h1 := addDays_valid hMv (7 * 52 * r)
  have ho1 := toOrd_addDays hMv (7 * 52 * r)
  have ho2 := toOrd_addDays h1 (7 * c)
  have hw0 := weekday_get_monday hb
  show (((get_monday b).addDays (7 * 52 * r)).addDays (7 * c)).weekday = 0
  unfold Date.weekday at hw0 ⊢
  rw [show ((7 * 52 * r : Nat) : Int) = 364 * (r : Int) by push_cast; ring] at ho1
  rw [show ((7 * c : Nat) : Int) = 7 * (c : Int) by push_cast; ring] at ho2
  omega

theorem claim_C9_witness :
    ((((lifeGrid ⟨1990, 6, 15⟩ none 1).toOption.getD []).getD 0 []).getD 0
      default).date.weekday = 0 :=
  claim_C9 ⟨1990, 6, 15⟩ (by decide) none 1
    ((lifeGrid ⟨1990, 6, 15⟩ none 1).toOption.getD []) (by decide)
    (((lifeGrid ⟨1990, 6, 15⟩ none 1).toOption.getD []).getD 0 []) (by decide)
    ((((lifeGrid ⟨1990, 6, 15⟩ none 1).toOption.getD []).getD 0 []).getD 0
      default) (by decide)

/-- C8: in the radial goal calendar, `draw_days` renders each week of
`draw_boxes`' listing so that a day cell of the target month is filled
black ("past") iff the day is strictly before the reference date (white
border either way), and every padding entry not belonging to the target
month is emitted as an all-white `empty` cell regardless of its relation
to the reference date. -/
theorem claim_C8 (ref : Date) (month : Int) (week : List DayEntry)
    (hw : week ∈ boxWeeks ref month) :
    draw_days ref week = .ok (week.map (dayBoxColors ref)) ∧
    ∀ e ∈ week,
      (e = DayEntry.pad → dayBoxColors ref e = (WHITE_COLOR, WHITE_COLOR)) ∧
      (∀ d, e = DayEntry.day d → d.month = month ∧
        ((dayBoxColors ref e).2 = BLACK_COLOR ↔ Date.lt d ref) ∧
        (dayBoxColors ref e).1 = BLACK_COLOR) := by
  refine ⟨draw_days_eq ref week, ?_⟩
  intro e he
  constructor
  · intro hpad
    subst hpad
    rfl
  · intro d hd
    refine ⟨boxWeeks_entry_month hw he d hd, ?_, ?_⟩
    · subst hd
      unfold dayBoxColors
      by_cases hlt : Date.lt d ref <;>
        simp [hlt, BLACK_COLOR, WHITE_COLOR]
    · subst hd
      rfl

theorem claim_C8_witness :
    draw_days ⟨2024, 2, 15⟩ ((boxWeeks ⟨2024, 2, 15⟩ 2).getD 0 []) =
      .ok (((boxWeeks ⟨2024, 2, 15⟩ 2).getD 0 []).map
        (dayBoxColors ⟨2024, 2, 15⟩)) :=
  (claim_C8 ⟨2024, 2, 15⟩ 2 ((boxWeeks ⟨2024, 2, 15⟩ 2).getD 0 [])
    (by decide)).1

/-- C10: in `draw_days` the `day == 0` padding-sentinel test is evaluated
before the `day < date` comparison, so the integer sentinel is never
order-compared against the reference date: for every week list of
sentinel-or-date entries the renderer is total, classifying every entry
without raising a type error. -/
theorem claim_C10 (ref : Date) (days : List DayEntry) :
    draw_days ref days = .ok (days.map (dayBoxColors ref)) :=
  draw_days_eq ref days

end Cal
